import Mathlib

/-!
Verification of the `tg_bot_sells` expense/income tracker.

This file is a shallow embedding of the bot's core logic:
`parse_amount` and the amount-handling step of the transaction dialogue
(`src/services/transaction_service.py`, `src/main.py`), the transaction
repository operations (`delete_transaction_by_id`,
`delete_last_transaction`, `get_user_transactions`), the recent-transactions
pager (`src/handlers/recent.py`), and the report aggregation pipeline
(`src/services/report_service.py`).  Python `Decimal` values and the
`float` amounts in the report dataframe are embedded as exact rationals
(`ℚ`); timestamps are integers; database tables are lists of records.
-/

namespace TgBotSells

/-! ## Data model (`src/storage/models.py`) -/

/-- `TransactionKind` enum: `expense` / `income`. -/
inductive TransactionKind where
  | EXPENSE
  | INCOME
deriving DecidableEq, Repr

/-- The `.value` of the Python enum member. -/
def TransactionKind.value : TransactionKind → String
  | .EXPENSE => "expense"
  | .INCOME => "income"

/-- A row of the `transactions` table. -/
structure Transaction where
  id : ℕ
  user_id : ℕ
  kind : TransactionKind
  category_id : ℕ
  subcategory_id : Option ℕ
  amount : ℚ
  currency : String
  comment : Option String
  created_at : ℤ
  effective_at : ℤ
deriving DecidableEq, Repr

/-! ## Amount parsing (`src/services/transaction_service.py`, `parse_amount`)

`parse_amount` does `amount_str.strip().replace(' ', '').replace(',', '.')`,
checks the result against the regex `^\d+\.?\d*$`, and converts with
`Decimal`.  We embed strings as their character lists. -/

/-- Whitespace stripped by Python `str.strip` (ASCII fragment). -/
def isStripWS (c : Char) : Bool :=
  c = ' ' || c = '\t' || c = '\n' || c = '\r'

/-- Python `str.strip`: drop leading and trailing whitespace. -/
def stripChars (cs : List Char) : List Char :=
  ((cs.dropWhile isStripWS).reverse.dropWhile isStripWS).reverse

/-- The cleaning pipeline of `parse_amount`:
`strip()`, then `replace(' ', '')`, then `replace(',', '.')`. -/
def cleanAmount (cs : List Char) : List Char :=
  ((stripChars cs).filter (fun c => c ≠ ' ')).map
    (fun c => if c = ',' then '.' else c)

/-- Numeric value of an ASCII digit character. -/
def digitVal (c : Char) : ℕ := c.toNat - 48

/-- Value of a most-significant-first digit string. -/
def valOfDigits (ds : List Char) : ℕ :=
  ds.foldl (fun a c => 10 * a + digitVal c) 0

/-- The exact rational value of the decimal literal `intDs ++ "." ++ fds`
(what Python's `Decimal` constructor yields on such input). -/
def decimalVal (intDs fds : List Char) : ℚ :=
  mkRat (valOfDigits intDs * 10 ^ fds.length + valOfDigits fds) (10 ^ fds.length)

/-- The regex match plus `Decimal` conversion of `parse_amount`, on an
already-cleaned character list.  The regex `^\d+\.?\d*$` demands a
nonempty digit prefix followed by nothing, or by one `.` and digits. -/
def parseCleaned (cs : List Char) : Option ℚ :=
  let intDs := cs.takeWhile Char.isDigit
  let rest := cs.dropWhile Char.isDigit
  if intDs = [] then none
  else if rest = [] then some (decimalVal intDs [])
  else if rest.head? = some '.' ∧ rest.tail.all Char.isDigit then
    some (decimalVal intDs rest.tail)
  else none

/-- `parse_amount`: clean the string, match `^\d+\.?\d*$`, convert.
Returns `none` on a parse failure (the Python function returns `None`). -/
def parse_amount (s : String) : Option ℚ :=
  parseCleaned (cleanAmount s.data)

/-- The spec's grammar, stated from the spec's words: "digits, optionally
one period, optionally trailing digits" — a nonempty digit run, then
either nothing or a period followed by (possibly zero) digits. -/
def matchesAmountPattern (cs : List Char) : Prop :=
  ∃ ds opt, cs = ds ++ opt ∧ ds ≠ [] ∧ ds.all Char.isDigit ∧
    (opt = [] ∨ ∃ fds, opt = '.' :: fds ∧ fds.all Char.isDigit)

/-! ## Amount step of the dialogue (`src/main.py`, `process_amount`)

The aiogram handler fires in state `TransactionStates.waiting_for_amount`.
It parses the message text; on `None` it sends the bad-format prompt and
returns (state and FSM data untouched); on `amount <= 0` it sends the
must-be-positive prompt and returns; otherwise it stores `amount` in the
draft and moves to `waiting_for_confirmation`.  The handler never touches
the transaction table: creation happens only in `process_confirmation`. -/

/-- `TransactionStates` of the FSM. -/
inductive BotState where
  | waiting_for_category
  | waiting_for_subcategory
  | waiting_for_comment
  | waiting_for_amount
  | waiting_for_confirmation
deriving DecidableEq, Repr

/-- The draft accumulated in the FSM data dict. -/
structure Draft where
  kind : Option String
  category_id : Option ℕ
  category_name : Option String
  subcategory_id : Option ℕ
  subcategory_name : Option String
  comment : Option String
  amount : Option ℚ
deriving DecidableEq, Repr

/-- What `process_amount` sends back to the user. -/
inductive AmountReply where
  | badFormat      -- "❌ Неверный формат суммы. Попробуйте снова ..."
  | mustBePositive -- "❌ Сумма должна быть больше нуля. Попробуйте снова:"
  | confirmPrompt  -- the confirmation summary with the confirm keyboard
deriving DecidableEq, Repr

/-- The `process_amount` handler, entered from `waiting_for_amount`:
result is the next state, the (possibly updated) draft, and the reply. -/
def process_amount (d : Draft) (text : String) : BotState × Draft × AmountReply :=
  match parse_amount text with
  | none => (.waiting_for_amount, d, .badFormat)
  | some a =>
      if a ≤ 0 then (.waiting_for_amount, d, .mustBePositive)
      else (.waiting_for_confirmation, { d with amount := some a }, .confirmPrompt)

/-! ## Transaction repository
(`src/services/transaction_service.py`)

The database is a list of `Transaction` rows.  `ORDER BY x DESC` is
embedded as `List.mergeSort` with the corresponding `Bool` comparison;
`LIMIT`/`OFFSET` as `take`/`drop`; `session.delete(t)` — which removes the
single row identified by `t` — as `List.eraseP` on the row's id (row ids
are unique). -/

/-- The `WHERE` clause assembled by `get_user_transactions`: user match
plus the optional kind and date-range filters. -/
def txFilterPred (user_id : ℕ) (kind : Option TransactionKind)
    (start_date end_date : Option ℤ) (t : Transaction) : Bool :=
  t.user_id = user_id &&
  (kind.elim true (fun k => t.kind = k)) &&
  (start_date.elim true (fun s => s ≤ t.effective_at)) &&
  (end_date.elim true (fun e => t.effective_at ≤ e))

/-- `get_user_transactions`: filter by user (and optional kind/date
bounds), newest `effective_at` first, `LIMIT limit` (default 50). -/
def get_user_transactions (store : List Transaction) (user_id : ℕ)
    (kind : Option TransactionKind := none)
    (start_date : Option ℤ := none) (end_date : Option ℤ := none)
    (limit : ℕ := 50) : List Transaction :=
  let rows := store.filter (txFilterPred user_id kind start_date end_date)
  (rows.mergeSort (fun a b => b.effective_at ≤ a.effective_at)).take limit

/-- `delete_transaction_by_id`: look the row up by id; `False` when it is
absent or owned by another user, else delete it and return `True`. -/
def delete_transaction_by_id (store : List Transaction)
    (user_id transaction_id : ℕ) : Bool × List Transaction :=
  match store.find? (fun t => t.id = transaction_id) with
  | none => (false, store)
  | some t =>
      if t.user_id ≠ user_id then (false, store)
      else (true, store.eraseP (fun u => u.id = transaction_id))

/-- The rows `delete_last_transaction` selects from: the user's rows with
`created_at >= now - minutes * 60`. -/
def undoCandidates (store : List Transaction) (user_id : ℕ)
    (now : ℤ) (minutes : ℤ) : List Transaction :=
  store.filter (fun t => t.user_id = user_id && now - minutes * 60 ≤ t.created_at)

/-- `delete_last_transaction`: among the user's rows created within the
last `minutes` minutes, take the one with the latest `created_at`
(`ORDER BY created_at DESC LIMIT 1`); delete it and return it, or return
`none` and leave the store unchanged. -/
def delete_last_transaction (store : List Transaction) (user_id : ℕ)
    (now : ℤ) (minutes : ℤ := 5) : Option Transaction × List Transaction :=
  match ((undoCandidates store user_id now minutes).mergeSort
      (fun a b => b.created_at ≤ a.created_at)).head? with
  | none => (none, store)
  | some t => (some t, store.eraseP (fun u => u.id = t.id))

/-- The reply of the `/undo` command handler (`src/main.py`, `cmd_undo`). -/
inductive UndoReply where
  | undone (t : Transaction) -- "✅ Последняя операция отменена: ..."
  | nothingToUndo            -- "❌ Не найдено операций для отмены ..."
deriving DecidableEq, Repr

/-- `cmd_undo`: call `delete_last_transaction` and report the outcome. -/
def cmd_undo (store : List Transaction) (user_id : ℕ) (now : ℤ) :
    UndoReply × List Transaction :=
  match delete_last_transaction store user_id now with
  | (some t, store1) => (.undone t, store1)
  | (none, store1) => (.nothingToUndo, store1)

/-! ## Recent-transactions browser (`src/handlers/recent.py`) -/

/-- The filter of `_fetch_recent`: the user's rows, narrowed to a kind
only when the scope string is `"expense"`/`"income"`. -/
def recentPred (user_id : ℕ) (kind : Option String) (t : Transaction) : Bool :=
  t.user_id = user_id &&
  (kind.elim true (fun s =>
    if s = "expense" || s = "income" then t.kind.value = s else true))

/-- `_fetch_recent`: the filtered rows, newest `effective_at` first,
`OFFSET offset LIMIT limit` with the fixed default page size 10. -/
def fetch_recent (store : List Transaction) (user_id : ℕ)
    (kind : Option String) (offset : ℕ) (limit : ℕ := 10) : List Transaction :=
  let rows := store.filter (recentPred user_id kind)
  (((rows.mergeSort (fun a b => b.effective_at ≤ a.effective_at)).drop
      offset).take limit)

/-- The forward-pagination signal of `_with_delete_buttons`: the
"Вперёд →" button is appended exactly when the page holds 10 items. -/
def hasMoreSignal (items : List Transaction) : Bool :=
  items.length = 10

/-! ## Report pipeline (`src/services/report_service.py`)

`_build_dataframe` projects transactions to dataframe rows; the `float`
column `Сумма` is embedded as `ℚ`.  `_aggregate_df` keeps the shape of
the source: a pair of the produced table and the optional aggregate
title. -/

/-- A row of the report dataframe (`_build_dataframe`). -/
structure Row where
  date : String
  category : String     -- "Категория"
  subcategory : String  -- "Подкатегория"
  amount : ℚ            -- "Сумма"
  currency : String
  comment : String
deriving DecidableEq, Repr

/-- `_build_dataframe`: one row per transaction; the category and
subcategory names resolved through the category map (falling back to the
raw id, and `"-"` for a missing subcategory). -/
def build_dataframe (transactions : List Transaction)
    (category_map : ℕ → String) : List Row :=
  transactions.map (fun t =>
    { date := toString t.effective_at
      category := category_map t.category_id
      subcategory := match t.subcategory_id with
        | some s => category_map s
        | none => "-"
      amount := t.amount
      currency := t.currency
      comment := t.comment.getD "" })

/-- Sum of the `Сумма` column. -/
def sumAmounts (df : List Row) : ℚ :=
  (df.map Row.amount).sum

/-- The distinct categories of `df`, in order of first appearance
(the grouping keys of `df.groupby('Категория')`). -/
def categoriesOf (df : List Row) : List String :=
  (df.map Row.category).dedup

/-- The distinct (category, subcategory) pairs of `df`. -/
def categoryPairsOf (df : List Row) : List (String × String) :=
  (df.map (fun r => (r.category, r.subcategory))).dedup

/-- The `by_category` grouped table: per category its row count and
amount sum, sorted by sum descending (`sort_values('Сумма',
ascending=False)`). -/
def byCategoryAgg (df : List Row) : List (String × ℕ × ℚ) :=
  ((categoriesOf df).map (fun c =>
    let g := df.filter (fun r => r.category = c)
    (c, g.length, sumAmounts g))).mergeSort
    (fun a b => b.2.2 ≤ a.2.2)

/-- The `by_subcategory` grouped table: per (category, subcategory) pair
its amount sum, sorted by sum descending. -/
def bySubcategoryAgg (df : List Row) : List (String × String × ℚ) :=
  ((categoryPairsOf df).map (fun p =>
    (p.1, p.2, sumAmounts (df.filter
      (fun r => r.category = p.1 && r.subcategory = p.2))))).mergeSort
    (fun a b => b.2.2 ≤ a.2.2)

/-- The table `_aggregate_df` returns: either the dataframe unchanged
(the fall-through `(df, None)` cases) or one of the aggregate shapes. -/
inductive AggTable where
  | raw (df : List Row)
  | byCategory (rows : List (String × ℕ × ℚ))
  | bySubcategory (rows : List (String × String × ℚ))
  | overall (rows : List (String × ℚ))
deriving DecidableEq, Repr

/-- Row count of an aggregation result (the dataframe's `len`). -/
def AggTable.numRows : AggTable → ℕ
  | .raw df => df.length
  | .byCategory rows => rows.length
  | .bySubcategory rows => rows.length
  | .overall rows => rows.length

/-- `_aggregate_df(df, mode)`.  An empty dataframe, a falsy mode (`None`
or `""`), the `detail` mode, and any unrecognized mode string all return
the dataframe unchanged with no aggregate title. -/
def aggregate_df (df : List Row) (mode : Option String) :
    AggTable × Option String :=
  if df = [] ∨ mode = none ∨ mode = some "" ∨ mode = some "detail" then
    (.raw df, none)
  else if mode = some "by_category" then
    (.byCategory (byCategoryAgg df), some "по категориям")
  else if mode = some "by_subcategory" then
    (.bySubcategory (bySubcategoryAgg df), some "по подкатегориям")
  else if mode = some "overall" then
    (.overall [("Сумма", sumAmounts df), ("Число операций", (df.length : ℚ))],
     some "итого")
  else
    (.raw df, none)

/-- The `{kind, total, count}` summary record of `build_report`, computed
over the unaggregated dataframe. -/
structure Summary where
  kind : String
  total : ℚ
  count : ℕ
deriving DecidableEq, Repr

/-- `_build_category_sections`: per category (sorted by total sum
descending) the per-subcategory sums of its rows (sorted descending);
used both as extra Excel sheets and as the PNG tables. -/
def build_category_sections (df : List Row) :
    List (String × List (String × ℚ)) :=
  if df = [] then []
  else
    (((categoriesOf df).map (fun c =>
        (c, sumAmounts (df.filter (fun r => r.category = c))))).mergeSort
      (fun a b => b.2 ≤ a.2)).map (fun cs =>
        let g := df.filter (fun r => r.category = cs.1)
        (cs.1, (((g.map Row.subcategory).dedup).map (fun s =>
            (s, sumAmounts (g.filter (fun r => r.subcategory = s))))).mergeSort
          (fun a b => b.2 ≤ a.2)))

/-- The artifacts `build_report` assembles (file writing abstracted
away): the raw data sheet, the summary, the optional aggregate sheet
with its title, the per-category extra sheets, and the tables drawn on
the PNG. -/
structure ReportOutput where
  dataSheet : List Row
  summary : Summary
  aggregateSheet : Option (AggTable × String)
  extraSheets : List (String × List (String × ℚ))
  pngTables : List (String × List (String × ℚ))
  displayTable : AggTable
deriving Repr

/-- `build_report` after the fetch: builds the dataframe and the summary
over it, then branches — the category-sections path only when
`aggregation == 'by_category_sections'` **and** the kind is EXPENSE,
otherwise the ordinary `_aggregate_df` path (the aggregate sheet and the
aggregated display are used only when an aggregate title came back). -/
def build_report (transactions : List Transaction) (category_map : ℕ → String)
    (kind : TransactionKind) (aggregation : Option String) : ReportOutput :=
  let df := build_dataframe transactions category_map
  let summary : Summary :=
    { kind := kind.value
      total := if df = [] then 0 else sumAmounts df
      count := df.length }
  if aggregation = some "by_category_sections" ∧ kind = .EXPENSE then
    let sections := build_category_sections df
    { dataSheet := df
      summary := summary
      aggregateSheet := none
      extraSheets := sections
      pngTables := sections
      displayTable := .raw df }
  else
    let (agg_df, agg_title) := aggregate_df df aggregation
    { dataSheet := df
      summary := summary
      aggregateSheet := match agg_title with
        | some ti => some (agg_df, "aggregate_" ++ ti)
        | none => none
      extraSheets := []
      pngTables := []
      displayTable := if agg_title.isSome then agg_df else .raw df }

/-! ## Tabular amount rendering
(`src/services/report_service.py`, `_render_table_on_axis`)

The `Сумма` column is displayed as
`f"{x:,.2f}".replace(',', ' ').replace('.', ',')`: round to two decimal
places (IEEE round-half-even, the rounding `%.2f` formatting applies),
group the integer digits in threes separated by spaces, and use a comma
as the decimal separator. -/

/-- Decimal digits of `n`, least significant first (`[]` for 0). -/
def natToRevDigits (n : ℕ) : List ℕ :=
  if n = 0 then [] else n % 10 :: natToRevDigits (n / 10)
decreasing_by exact Nat.div_lt_self (Nat.pos_of_ne_zero (by assumption)) (by norm_num)

/-- Value of a least-significant-first digit list. -/
def ofRevDigits (ds : List ℕ) : ℕ :=
  ds.foldr (fun d acc => d + 10 * acc) 0

/-- The ASCII character of a digit. -/
def digitChar (d : ℕ) : Char := Char.ofNat (48 + d)

/-- Decimal digit characters of `n`, most significant first
(`"0"` for 0, as printed by Python). -/
def natToDigitChars (n : ℕ) : List Char :=
  if n = 0 then ['0'] else ((natToRevDigits n).map digitChar).reverse

/-- Insert a space after every block of 3 characters of a
least-significant-first digit list (the `,` thousand separators of
`f"{x:,.2f}"` after `replace(',', ' ')`, seen from the right). -/
def group3 : List Char → List Char
  | a :: b :: c :: d :: rest => a :: b :: c :: ' ' :: group3 (d :: rest)
  | l => l

/-- Round-half-even of a rational to an integer (the rounding used by
Python's fixed-point float formatting). -/
def roundHalfEven (q : ℚ) : ℤ :=
  let f := ⌊q⌋
  let r := q - f
  if r < 1/2 then f
  else if 1/2 < r then f + 1
  else if f % 2 = 0 then f else f + 1

/-- The tabular rendering of a (nonnegative) amount:
two decimals, space thousand separators, comma decimal separator. -/
def formatAmount (q : ℚ) : String :=
  let cents := (roundHalfEven (100 * q)).toNat
  let ip := cents / 100
  let fp := cents % 100
  String.mk ((group3 (natToDigitChars ip).reverse).reverse ++
    [','] ++ [digitChar (fp / 10), digitChar (fp % 10)])

/-! ## Helper lemmas -/

lemma takeWhile_append_of_all {p : Char → Bool} {l1 l2 : List Char}
    (h : ∀ c ∈ l1, p c) :
    (l1 ++ l2).takeWhile p = l1 ++ l2.takeWhile p := by
  induction l1 with
  | nil => simp
  | cons a t ih =>
      simp only [List.cons_append, List.takeWhile_cons, h a (by simp),
        List.cons.injEq, true_and, if_true]
      exact ih (fun c hc => h c (by simp [hc]))

lemma dropWhile_append_of_all {p : Char → Bool} {l1 l2 : List Char}
    (h : ∀ c ∈ l1, p c) :
    (l1 ++ l2).dropWhile p = l2.dropWhile p := by
  induction l1 with
  | nil => simp
  | cons a t ih =>
      simp only [List.cons_append, List.dropWhile_cons, h a (by simp), if_true]
      exact ih (fun c hc => h c (by simp [hc]))

/-- `parseCleaned` accepts exactly the strings of the spec's grammar. -/
lemma parseCleaned_isSome_iff (cs : List Char) :
    (parseCleaned cs).isSome ↔ matchesAmountPattern cs := by
  unfold parseCleaned
  constructor
  · intro hsome
    refine ⟨cs.takeWhile Char.isDigit, cs.dropWhile Char.isDigit,
      (List.takeWhile_append_dropWhile Char.isDigit cs).symm, ?_, ?_, ?_⟩
    · intro hnil
      rw [if_pos hnil] at hsome
      exact Bool.false_ne_true hsome
    · exact List.all_eq_true.mpr (fun c hc => List.mem_takeWhile_imp hc)
    · by_cases hnil : cs.takeWhile Char.isDigit = []
      · rw [if_pos hnil] at hsome
        exact absurd hsome Bool.false_ne_true
      · rw [if_neg hnil] at hsome
        rcases hrest : cs.dropWhile Char.isDigit with _ | ⟨c, fds⟩
        · exact Or.inl rfl
        · rw [hrest] at hsome
          rw [if_neg (by simp)] at hsome
          by_cases hcd : (c :: fds).head? = some '.' ∧
              (c :: fds).tail.all Char.isDigit
          · refine Or.inr ⟨fds, ?_, ?_⟩
            · have : c = '.' := by simpa using hcd.1
              rw [this]
            · simpa using hcd.2
          · rw [if_neg hcd] at hsome
            exact absurd hsome Bool.false_ne_true
  · rintro ⟨ds, opt, rfl, hne, hall, hopt⟩
    have hds : ∀ c ∈ ds, Char.isDigit c := fun c hc =>
      List.all_eq_true.mp hall c hc
    rcases hopt with rfl | ⟨fds, rfl, hfds⟩
    · rw [takeWhile_append_of_all hds, dropWhile_append_of_all hds]
      simp only [List.takeWhile_nil, List.dropWhile_nil, List.append_nil]
      rw [if_neg hne]
      simp
    · rw [takeWhile_append_of_all hds, dropWhile_append_of_all hds]
      have h1 : ('.' :: fds).takeWhile Char.isDigit = [] := by
        simp [List.takeWhile_cons]
      have h2 : ('.' :: fds).dropWhile Char.isDigit = '.' :: fds := by
        simp [List.dropWhile_cons]
      rw [h1, h2, List.append_nil, if_neg hne, if_neg (by simp),
        if_pos ⟨rfl, by simpa using hfds⟩]
      rfl

/-! Digit-string lemmas for the formatter round trip. -/

lemma ofRevDigits_cons (d : ℕ) (ds : List ℕ) :
    ofRevDigits (d :: ds) = d + 10 * ofRevDigits ds := rfl

lemma ofRevDigits_natToRevDigits (n : ℕ) :
    ofRevDigits (natToRevDigits n) = n := by
  induction n using Nat.strong_induction_on with
  | _ n ih =>
      rw [natToRevDigits]
      by_cases h : n = 0
      · simp [h, ofRevDigits]
      · rw [if_neg h, ofRevDigits_cons,
          ih (n / 10) (Nat.div_lt_self (Nat.pos_of_ne_zero h) (by norm_num))]
        exact Nat.mod_add_div n 10

lemma natToRevDigits_lt (n : ℕ) : ∀ d ∈ natToRevDigits n, d < 10 := by
  induction n using Nat.strong_induction_on with
  | _ n ih =>
      rw [natToRevDigits]
      by_cases h : n = 0
      · simp [h]
      · rw [if_neg h]
        intro d hd
        rcases List.mem_cons.mp hd with h1 | h1
        · exact h1 ▸ Nat.mod_lt n (by norm_num)
        · exact ih (n / 10)
            (Nat.div_lt_self (Nat.pos_of_ne_zero h) (by norm_num)) d h1

lemma digitChar_props (d : ℕ) (hd : d < 10) :
    (digitChar d).isDigit = true ∧ digitVal (digitChar d) = d ∧
    digitChar d ≠ ',' ∧ digitChar d ≠ ' ' ∧
    isStripWS (digitChar d) = false := by
  interval_cases d <;> refine ⟨by decide, by decide, by decide, by decide, by decide⟩

/-- Every character of `natToDigitChars n` is some digit character. -/
lemma natToDigitChars_shape (n : ℕ) :
    ∀ c ∈ natToDigitChars n, ∃ d, d < 10 ∧ c = digitChar d := by
  intro c hc
  rw [natToDigitChars] at hc
  by_cases h : n = 0
  · rw [if_pos h] at hc
    exact ⟨0, by norm_num, by simpa using hc⟩
  · rw [if_neg h, List.mem_reverse, List.mem_map] at hc
    rcases hc with ⟨d, hd, rfl⟩
    exact ⟨d, natToRevDigits_lt n d hd, rfl⟩

lemma natToDigitChars_ne_nil (n : ℕ) : natToDigitChars n ≠ [] := by
  rw [natToDigitChars]
  by_cases h : n = 0
  · simp [h]
  · rw [if_neg h]
    intro hcon
    have : natToRevDigits n = [] := by
      rcases hmap : (natToRevDigits n).map digitChar with _ | _
      · simpa using hmap
      · rw [hmap] at hcon; simp at hcon
    rw [natToRevDigits, if_neg h] at this
    simp at this

lemma valOfDigits_natToDigitChars (n : ℕ) :
    valOfDigits (natToDigitChars n) = n := by
  rw [natToDigitChars]
  by_cases h : n = 0
  · simp [h, valOfDigits, digitVal, digitChar]
  · rw [if_neg h, valOfDigits, List.foldl_reverse, List.foldr_map]
    have hfold : ∀ ds : List ℕ, (∀ d ∈ ds, d < 10) →
        List.foldr (fun d a => 10 * a + digitVal (digitChar d)) 0 ds =
          ofRevDigits ds := by
      intro ds hds
      induction ds with
      | nil => rfl
      | cons d ds ih =>
          rw [List.foldr_cons, ofRevDigits_cons,
            (digitChar_props d (hds d (by simp))).2.1,
            ih (fun e he => hds e (by simp [he]))]
          omega
    rw [hfold (natToRevDigits n) (natToRevDigits_lt n),
      ofRevDigits_natToRevDigits]

/-! Lemmas about the cleaning pipeline applied to a formatted amount. -/

lemma filter_group3 (l : List Char) :
    (group3 l).filter (fun c => c ≠ ' ') = l.filter (fun c => c ≠ ' ') := by
  induction l using group3.induct with
  | case1 a b c d rest ih =>
      rw [group3]
      simp only [List.filter_cons, ih]
      rw [show (decide (' ' ≠ ' ')) = false from by decide]
      simp only [Bool.false_eq_true, if_false]
  | case2 l h =>
      rw [group3]
      exact h

lemma mem_group3 (l : List Char) (x : Char) (hx : x ∈ group3 l) :
    x ∈ l ∨ x = ' ' := by
  induction l using group3.induct with
  | case1 a b c d rest ih =>
      rw [group3] at hx
      simp only [List.mem_cons] at hx ih ⊢
      rcases hx with h | h | h | h | h
      · exact Or.inl (Or.inl h)
      · exact Or.inl (Or.inr (Or.inl h))
      · exact Or.inl (Or.inr (Or.inr (Or.inl h)))
      · exact Or.inr h
      · rcases ih h with h2 | h2
        · exact Or.inl (Or.inr (Or.inr (Or.inr h2)))
        · exact Or.inr h2
  | case2 l h =>
      rw [group3] at hx
      · exact Or.inl hx
      · exact h

lemma filter_dropWhile_ws (l : List Char)
    (h : ∀ c ∈ l, isStripWS c = true → c = ' ') :
    (l.dropWhile isStripWS).filter (fun c => c ≠ ' ') =
      l.filter (fun c => c ≠ ' ') := by
  induction l with
  | nil => rfl
  | cons a l ih =>
      rw [List.dropWhile_cons]
      by_cases ha : isStripWS a = true
      · rw [if_pos ha, List.filter_cons_of_neg (by simp [h a (by simp) ha]),
          ih (fun c hc hws => h c (by simp [hc]) hws)]
      · rw [if_neg ha]

lemma filter_stripChars_ws (l : List Char)
    (h : ∀ c ∈ l, isStripWS c = true → c = ' ') :
    (stripChars l).filter (fun c => c ≠ ' ') =
      l.filter (fun c => c ≠ ' ') := by
  rw [stripChars, List.filter_reverse, filter_dropWhile_ws, List.filter_reverse,
    List.reverse_reverse, filter_dropWhile_ws l h]
  intro c hc hws
  exact h c ((List.dropWhile_sublist _).subset (List.mem_reverse.mp hc)) hws

lemma map_comma_id (ds : List Char) (h : ∀ c ∈ ds, c ≠ ',') :
    ds.map (fun c => if c = ',' then '.' else c) = ds := by
  induction ds with
  | nil => rfl
  | cons a ds ih =>
      rw [List.map_cons, if_neg (h a (by simp)),
        ih (fun c hc => h c (by simp [hc]))]

/-- The cleaning pipeline recovers the plain decimal literal from a
formatted cents value: spaces are stripped and the decimal comma becomes
a period. -/
lemma cleanAmount_format_cents (cents : ℕ) :
    cleanAmount ((group3 (natToDigitChars (cents / 100)).reverse).reverse ++
        [','] ++ [digitChar (cents % 100 / 10), digitChar (cents % 100 % 10)]) =
      natToDigitChars (cents / 100) ++
        '.' :: [digitChar (cents % 100 / 10), digitChar (cents % 100 % 10)] := by
  have hds := natToDigitChars_shape (cents / 100)
  have hd1 := digitChar_props (cents % 100 / 10) (by omega)
  have hd2 := digitChar_props (cents % 100 % 10) (by omega)
  rw [cleanAmount, filter_stripChars_ws]
  · rw [List.filter_append, List.filter_append, List.filter_reverse,
      filter_group3, List.filter_reverse, List.reverse_reverse]
    have h1 : (natToDigitChars (cents / 100)).filter (fun c => c ≠ ' ') =
        natToDigitChars (cents / 100) := by
      rw [List.filter_eq_self]
      intro c hc
      rcases hds c hc with ⟨d, hd, rfl⟩
      simpa using (digitChar_props d hd).2.2.2.1
    have h2 : ([','] : List Char).filter (fun c => c ≠ ' ') = [','] := by decide
    have h3 : ([digitChar (cents % 100 / 10),
        digitChar (cents % 100 % 10)]).filter (fun c => c ≠ ' ') =
        [digitChar (cents % 100 / 10), digitChar (cents % 100 % 10)] := by
      rw [List.filter_eq_self]
      intro c hc
      rcases List.mem_cons.mp hc with rfl | hc2
      · simpa using hd1.2.2.2.1
      · rcases List.mem_cons.mp hc2 with rfl | hc3
        · simpa using hd2.2.2.2.1
        · simp at hc3
    rw [h1, h2, h3, List.map_append, List.map_append,
      map_comma_id _ (fun c hc => by
        rcases hds c hc with ⟨d, hd, rfl⟩
        exact (digitChar_props d hd).2.2.1),
      List.map_cons, if_pos rfl, List.map_nil,
      map_comma_id _ (fun c hc => by
        rcases List.mem_cons.mp hc with rfl | hc2
        · exact hd1.2.2.1
        · rcases List.mem_cons.mp hc2 with rfl | hc3
          · exact hd2.2.2.1
          · simp at hc3)]
    simp
  · intro c hc hws
    rcases List.mem_append.mp hc with hc1 | hc2
    · rcases List.mem_append.mp hc1 with hg | hcomma
      · rcases mem_group3 _ c (List.mem_reverse.mp hg) with hd | rfl
        · rcases hds c (List.mem_reverse.mp hd) with ⟨d, hdlt, rfl⟩
          rw [(digitChar_props d hdlt).2.2.2.2] at hws
          exact absurd hws (by simp)
        · rfl
      · rw [show c = ',' from by simpa using hcomma] at hws
        exact absurd hws (by decide)
    · rcases List.mem_cons.mp hc2 with rfl | hc3
      · rw [hd1.2.2.2.2] at hws
        exact absurd hws (by simp)
      · rcases List.mem_cons.mp hc3 with rfl | hc4
        · rw [hd2.2.2.2.2] at hws
          exact absurd hws (by simp)
        · simp at hc4

lemma decimalVal_nonneg (a b : List Char) : 0 ≤ decimalVal a b := by
  rw [decimalVal, Rat.mkRat_eq_div]
  positivity

lemma parse_amount_nonneg (s : String) (q : ℚ)
    (h : parse_amount s = some q) : 0 ≤ q := by
  rw [parse_amount, parseCleaned] at h
  split_ifs at h
  all_goals
    rw [Option.some.injEq] at h
    exact le_of_le_of_eq (decimalVal_nonneg _ _) h

/-- Parsing the formatted rendering of an exact cents value recovers
`cents / 100`. -/
lemma parse_format_cents (cents : ℕ) :
    parse_amount (String.mk
      ((group3 (natToDigitChars (cents / 100)).reverse).reverse ++
        [','] ++ [digitChar (cents % 100 / 10), digitChar (cents % 100 % 10)]))
      = some (mkRat cents 100) := by
  rw [parse_amount]
  rw [show (String.mk
      ((group3 (natToDigitChars (cents / 100)).reverse).reverse ++
        [','] ++ [digitChar (cents % 100 / 10),
          digitChar (cents % 100 % 10)])).data =
      (group3 (natToDigitChars (cents / 100)).reverse).reverse ++
        [','] ++ [digitChar (cents % 100 / 10), digitChar (cents % 100 % 10)]
    from rfl]
  rw [cleanAmount_format_cents]
  have hdigits : ∀ c ∈ natToDigitChars (cents / 100), Char.isDigit c := by
    intro c hc
    rcases natToDigitChars_shape _ c hc with ⟨d, hd, rfl⟩
    exact (digitChar_props d hd).1
  have h1 : (natToDigitChars (cents / 100) ++
      '.' :: [digitChar (cents % 100 / 10),
        digitChar (cents % 100 % 10)]).takeWhile Char.isDigit =
      natToDigitChars (cents / 100) := by
    rw [takeWhile_append_of_all hdigits]
    simp [List.takeWhile_cons]
  have h2 : (natToDigitChars (cents / 100) ++
      '.' :: [digitChar (cents % 100 / 10),
        digitChar (cents % 100 % 10)]).dropWhile Char.isDigit =
      '.' :: [digitChar (cents % 100 / 10), digitChar (cents % 100 % 10)] := by
    rw [dropWhile_append_of_all hdigits]
    simp [List.dropWhile_cons]
  have hall : ([digitChar (cents % 100 / 10),
      digitChar (cents % 100 % 10)]).all Char.isDigit := by
    simp only [List.all_cons, List.all_nil, Bool.and_true]
    rw [(digitChar_props (cents % 100 / 10) (by omega)).1,
      (digitChar_props (cents % 100 % 10) (by omega)).1]
    rfl
  rw [parseCleaned, h1, h2, if_neg (natToDigitChars_ne_nil _),
    if_neg (by simp), if_pos ⟨rfl, by simpa using hall⟩]
  rw [decimalVal, valOfDigits_natToDigitChars]
  have hv2 : valOfDigits [digitChar (cents % 100 / 10),
      digitChar (cents % 100 % 10)] = cents % 100 := by
    rw [valOfDigits]
    simp only [List.foldl_cons, List.foldl_nil]
    rw [(digitChar_props (cents % 100 / 10) (by omega)).2.1,
      (digitChar_props (cents % 100 % 10) (by omega)).2.1]
    omega
  rw [List.tail_cons, hv2]
  congr 1
  rw [show [digitChar (cents % 100 / 10),
      digitChar (cents % 100 % 10)].length = 2 from rfl]
  rw [show ((10 : ℤ) ^ 2 : ℤ) = 100 from by norm_num,
    show ((10 : ℕ) ^ 2 : ℕ) = 100 from by norm_num]
  congr 1
  omega

/-! ## Claims -/

/-- **C2.** `parse_amount` strips surrounding whitespace, removes internal
spaces and normalizes a comma decimal separator to a period (the
`cleanAmount` pipeline), and succeeds exactly when the cleaned result
matches "digits, optionally one period, optionally trailing digits";
moreover `parse_amount "1000" = 1000`, `parse_amount "1 500" = 1500`,
`parse_amount "2,50" = 2.50`, and `parse_amount "abc"` fails. -/
theorem parse_amount_grammar_and_examples :
    (∀ s : String,
      (parse_amount s).isSome ↔ matchesAmountPattern (cleanAmount s.data)) ∧
    parse_amount "1000" = some 1000 ∧
    parse_amount "1 500" = some 1500 ∧
    parse_amount "2,50" = some (5 / 2) ∧
    parse_amount "abc" = none := by
  refine ⟨fun s => parseCleaned_isSome_iff (cleanAmount s.data), by decide,
    by decide, ?_, by decide⟩
  have h : parse_amount "2,50" = some (mkRat 250 100) := by decide
  rw [h]
  norm_num [Rat.mkRat_eq_div]

/-- Witness for C2: the grammar characterization applied to the concrete
input `"1 500"`. -/
theorem parse_amount_grammar_and_examples_witness :
    matchesAmountPattern (cleanAmount "1 500".data) :=
  (parse_amount_grammar_and_examples.1 "1 500").mp (by decide)

/-- **C3, counterexample.** The claim says "-5" parses successfully and is
only rejected at the validation step; in fact the regex `^\d+\.?\d*$`
already rejects the minus sign, so `parse_amount "-5"` is a parse
failure (`None`), and `process_amount` answers with the bad-format
reply, not the non-positive reply. -/
theorem negative_amount_is_parse_failure :
    parse_amount "-5" = none ∧
    (process_amount
      ⟨none, none, none, none, none, none, none⟩ "-5").2.2 =
        AmountReply.badFormat := by
  constructor <;> decide

/-- **C3, amended.** A negative amount string such as "-5" is rejected
already at the parse step (`parse_amount` returns `None`); a zero amount
such as "0" parses successfully and is then rejected as non-positive at
the validation step, a branch distinct from parse failure — though both
re-prompt by re-entering the amount state with the draft unchanged. -/
theorem nonpositive_amount_validation (d : Draft) :
    parse_amount "-5" = none ∧
    process_amount d "-5" = (.waiting_for_amount, d, .badFormat) ∧
    parse_amount "0" = some 0 ∧
    process_amount d "0" = (.waiting_for_amount, d, .mustBePositive) := by
  have h5 : parse_amount "-5" = none := by decide
  have h0 : parse_amount "0" = some 0 := by decide
  refine ⟨h5, ?_, h0, ?_⟩
  · simp [process_amount, h5]
  · simp [process_amount, h0]

/-- **C5.** From `AwaitingAmount`, an amount submission that fails to
parse or parses to a non-positive value re-enters `AwaitingAmount` with
an error reply: the draft is not advanced and the confirmation step is
not reached (the handler never creates a transaction; creation happens
only in the confirmation handler). -/
theorem amount_error_reenters_awaiting_amount (d : Draft) (text : String)
    (h : ∀ a : ℚ, parse_amount text = some a → a ≤ 0) :
    (process_amount d text).1 = BotState.waiting_for_amount ∧
    (process_amount d text).2.1 = d ∧
    (process_amount d text).2.2 ≠ AmountReply.confirmPrompt := by
  rcases hp : parse_amount text with _ | a
  · simp [process_amount, hp]
  · have ha : a ≤ 0 := h a hp
    simp [process_amount, hp, if_pos ha]

/-- Witness for C5: submitting `"0"` from `AwaitingAmount`. -/
theorem amount_error_reenters_awaiting_amount_witness :
    (∀ a : ℚ, parse_amount "0" = some a → a ≤ 0) ∧
    ((process_amount ⟨some "expense", some 1, some "c", none, none,
        none, none⟩ "0").1 = BotState.waiting_for_amount ∧
      (process_amount ⟨some "expense", some 1, some "c", none, none,
        none, none⟩ "0").2.1 =
          ⟨some "expense", some 1, some "c", none, none, none, none⟩ ∧
      (process_amount ⟨some "expense", some 1, some "c", none, none,
        none, none⟩ "0").2.2 ≠ AmountReply.confirmPrompt) := by
  have h : ∀ a : ℚ, parse_amount "0" = some a → a ≤ 0 := by decide
  exact ⟨h, amount_error_reenters_awaiting_amount _ "0" h⟩

/-- **C4, counterexample.** The claim says the `overall` mode always
yields exactly 2 rows, in particular on an empty filtered set; in fact
`_aggregate_df` short-circuits on an empty dataframe and returns the
empty dataframe unaggregated, so the `overall` table has 0 rows there. -/
theorem overall_empty_has_zero_rows :
    (aggregate_df [] (some "overall")).1.numRows = 0 ∧
    ¬ (aggregate_df [] (some "overall")).1.numRows = 2 := by
  constructor <;> decide

/-- **C4, amended.** The `overall` aggregation yields exactly 2 rows
(total sum and total count) whenever the filtered set is nonempty; on an
empty filtered set `_aggregate_df` instead falls back to the well-formed
empty unaggregated table (0 rows, not an error), while the report
summary record still reports total 0.00 and count 0. -/
theorem overall_two_rows_amended (df : List Row)
    (category_map : ℕ → String) (kind : TransactionKind) (hdf : df ≠ []) :
    (aggregate_df df (some "overall")).1.numRows = 2 ∧
    aggregate_df [] (some "overall") = (.raw [], none) ∧
    (build_report [] category_map kind (some "overall")).summary.total = 0 ∧
    (build_report [] category_map kind (some "overall")).summary.count = 0 := by
  refine ⟨?_, by decide, ?_, ?_⟩
  · rw [aggregate_df, if_neg (by simp [hdf]), if_neg (by simp),
      if_neg (by simp), if_pos rfl]
    rfl
  · rcases kind <;> rfl
  · rcases kind <;> rfl

/-- Witness for C4 (amended): a one-row dataframe. -/
theorem overall_two_rows_amended_witness :
    (aggregate_df [⟨"d", "c", "-", 5, "RUB", ""⟩]
      (some "overall")).1.numRows = 2 :=
  (overall_two_rows_amended [⟨"d", "c", "-", 5, "RUB", ""⟩]
    (fun _ => "x") .EXPENSE (by simp)).1

/-- **C10.** Requesting a `by_category_sections` report for the INCOME
kind does not fail: the guard in `build_report` requires
`kind == EXPENSE`, so the request takes the ordinary branch, where
`_aggregate_df` does not recognize `'by_category_sections'` and falls
through to the unaggregated (detail) rendering — a single raw table, no
aggregate sheet, and no per-category section sheets or PNG tables. -/
theorem by_category_sections_income_falls_back
    (transactions : List Transaction) (category_map : ℕ → String) :
    (build_report transactions category_map .INCOME
      (some "by_category_sections")).extraSheets = [] ∧
    (build_report transactions category_map .INCOME
      (some "by_category_sections")).pngTables = [] ∧
    (build_report transactions category_map .INCOME
      (some "by_category_sections")).aggregateSheet = none ∧
    (build_report transactions category_map .INCOME
      (some "by_category_sections")).displayTable =
        .raw (build_dataframe transactions category_map) := by
  have hagg : aggregate_df (build_dataframe transactions category_map)
      (some "by_category_sections") =
      (.raw (build_dataframe transactions category_map), none) := by
    by_cases hdf : build_dataframe transactions category_map = []
    · rw [aggregate_df, if_pos (Or.inl hdf)]
    · rw [aggregate_df, if_neg (by simp [hdf]), if_neg (by simp),
        if_neg (by simp), if_neg (by simp)]
  rw [build_report, if_neg (by simp)]
  simp [hagg]

/-! Partition lemmas for the `by_category` grouping. -/

lemma sum_map_filter_add {M : Type} [AddCommMonoid M] (p : Row → Bool)
    (w : Row → M) (l : List Row) :
    ((l.filter p).map w).sum + ((l.filter (fun a => !p a)).map w).sum
      = (l.map w).sum := by
  induction l with
  | nil => simp
  | cons a l ih =>
      by_cases hp : p a
      · simp only [List.filter_cons, hp, Bool.not_true, List.map_cons,
          List.sum_cons, if_true, Bool.false_eq_true, if_false]
        rw [add_assoc, ih]
      · simp only [List.filter_cons, hp, Bool.not_false, List.map_cons,
          List.sum_cons, Bool.false_eq_true, if_false, if_true]
        rw [add_left_comm, ih]

lemma partition_sum {M : Type} [AddCommMonoid M] (w : Row → M) :
    ∀ (keys : List String) (df : List Row),
      (∀ r ∈ df, r.category ∈ keys) → keys.Nodup →
      (keys.map (fun c =>
        ((df.filter (fun r => r.category = c)).map w).sum)).sum
        = (df.map w).sum := by
  intro keys
  induction keys with
  | nil =>
      intro df hcover _
      rcases df with _ | ⟨r, df⟩
      · simp
      · exact absurd (hcover r (by simp)) (by simp)
  | cons c keys ih =>
      intro df hcover hnd
      have hnotmem : c ∉ keys := (List.nodup_cons.mp hnd).1
      have htail :
          (keys.map (fun k =>
            ((df.filter (fun r => r.category = k)).map w).sum)).sum
          = (keys.map (fun k =>
            (((df.filter (fun r => !(decide (r.category = c)))).filter
              (fun r => r.category = k)).map w).sum)).sum := by
        congr 1
        refine List.map_congr_left (fun k hk => ?_)
        have hkc : k ≠ c := fun h => hnotmem (h ▸ hk)
        congr 1
        congr 1
        rw [List.filter_filter]
        refine (List.filter_congr (fun r _ => ?_))
        by_cases hr : r.category = k
        · simp [hr, hkc]
        · simp [hr]
      rw [List.map_cons, List.sum_cons, htail,
        ih (df.filter (fun r => !(decide (r.category = c))))
          (fun r hr => ?_) (List.nodup_cons.mp hnd).2]
      · exact sum_map_filter_add (fun r => decide (r.category = c)) w df
      · have hmem : r ∈ df := List.mem_of_mem_filter hr
        have hne : ¬ (r.category = c) := by
          have := List.of_mem_filter hr
          simpa using this
        rcases List.mem_cons.mp (hcover r hmem) with h | h
        · exact absurd h hne
        · exact h

lemma partition_length :
    ∀ (keys : List String) (df : List Row),
      (∀ r ∈ df, r.category ∈ keys) → keys.Nodup →
      (keys.map (fun c =>
        (df.filter (fun r => r.category = c)).length)).sum = df.length := by
  intro keys df hcover hnd
  have h := partition_sum (M := ℕ) (fun _ => 1) keys df hcover hnd
  simpa using h

/-- In both branches of `build_report` the summary record is the same:
it is computed from the dataframe before any aggregation. -/
lemma build_report_summary (transactions : List Transaction)
    (category_map : ℕ → String) (kind : TransactionKind)
    (aggregation : Option String) :
    (build_report transactions category_map kind aggregation).summary =
      { kind := kind.value
        total := sumAmounts (build_dataframe transactions category_map)
        count := (build_dataframe transactions category_map).length } := by
  have hz : (if build_dataframe transactions category_map = [] then (0 : ℚ)
      else sumAmounts (build_dataframe transactions category_map)) =
      sumAmounts (build_dataframe transactions category_map) := by
    split
    · simp_all [sumAmounts]
    · rfl
  rw [build_report]
  split
  · simp [hz]
  · simp [hz]

/-- **C1.** The report summary `{kind, total, count}` is computed over
the unaggregated filtered dataframe regardless of aggregation mode, and
the `by_category` aggregation is consistent with it: the per-category
sums add up to `summary.total` and the per-category counts add up to
`summary.count`. -/
theorem summary_by_category_consistency
    (transactions : List Transaction) (category_map : ℕ → String)
    (kind : TransactionKind) (aggregation : Option String) :
    (build_report transactions category_map kind aggregation).summary.total
        = sumAmounts (build_dataframe transactions category_map) ∧
    (build_report transactions category_map kind aggregation).summary.count
        = (build_dataframe transactions category_map).length ∧
    ((byCategoryAgg (build_dataframe transactions category_map)).map
        (fun r => r.2.2)).sum =
      (build_report transactions category_map kind aggregation).summary.total ∧
    ((byCategoryAgg (build_dataframe transactions category_map)).map
        (fun r => r.2.1)).sum =
      (build_report transactions category_map kind aggregation).summary.count := by
  set df := build_dataframe transactions category_map with hdf
  have hsum : (build_report transactions category_map kind
      aggregation).summary =
      { kind := kind.value, total := sumAmounts df, count := df.length } :=
    build_report_summary ..
  have hcover : ∀ r ∈ df, r.category ∈ categoriesOf df := fun r hr =>
    List.mem_dedup.mpr (List.mem_map_of_mem Row.category hr)
  have hnd : (categoriesOf df).Nodup := List.nodup_dedup _
  have hperm := List.mergeSort_perm
    ((categoriesOf df).map (fun c =>
      let g := df.filter (fun r => r.category = c)
      (c, g.length, sumAmounts g)))
    (fun a b => b.2.2 ≤ a.2.2)
  have htotal : ((byCategoryAgg df).map (fun r => r.2.2)).sum
      = sumAmounts df := by
    rw [byCategoryAgg, (hperm.map (fun r => r.2.2)).sum_eq, List.map_map]
    have := partition_sum Row.amount (categoriesOf df) df hcover hnd
    simpa [Function.comp, sumAmounts] using this
  have hcount : ((byCategoryAgg df).map (fun r => r.2.1)).sum
      = df.length := by
    rw [byCategoryAgg, (hperm.map (fun r => r.2.1)).sum_eq, List.map_map]
    have := partition_length (categoriesOf df) df hcover hnd
    simpa [Function.comp] using this
  rw [hsum]
  exact ⟨rfl, rfl, htotal, hcount⟩

/-! Helper lemmas for the repository operations: with unique row ids,
deleting the row `SELECT`ed by id removes exactly the rows carrying that
id, and a row is `find?`-able by its id. -/

lemma eraseP_id_eq_filter (store : List Transaction)
    (hnd : (store.map Transaction.id).Nodup) (i : ℕ) :
    store.eraseP (fun u => u.id = i) = store.filter (fun u => u.id ≠ i) := by
  induction store with
  | nil => rfl
  | cons a l ih =>
      rw [List.map_cons, List.nodup_cons] at hnd
      by_cases ha : a.id = i
      · rw [List.eraseP_cons_of_pos (by simp [ha]),
          List.filter_cons_of_neg (by simp [ha])]
        symm
        rw [List.filter_eq_self]
        intro u hu
        simp only [ne_eq, decide_eq_true_eq]
        intro hui
        exact hnd.1 (ha ▸ hui ▸ List.mem_map_of_mem Transaction.id hu)
      · rw [List.eraseP_cons_of_neg (by simp [ha]),
          List.filter_cons_of_pos (by simp [ha]), ih hnd.2]

lemma find?_id_eq_some (store : List Transaction) (t : Transaction)
    (hnd : (store.map Transaction.id).Nodup) (ht : t ∈ store) :
    store.find? (fun u => u.id = t.id) = some t := by
  have hsome : (store.find? (fun u => u.id = t.id)).isSome :=
    List.find?_isSome.mpr ⟨t, ht, by simp⟩
  rcases hu : store.find? (fun u => u.id = t.id) with _ | u
  · rw [hu] at hsome; exact absurd hsome (by simp)
  · have hmem : u ∈ store := List.mem_of_find?_eq_some hu
    have hid : u.id = t.id := by simpa using List.find?_some hu
    rw [hu]
    exact congrArg some (List.inj_on_of_nodup_map hnd hmem ht hid)

/-- Reduction of `delete_transaction_by_id` once the row is found. -/
lemma delete_transaction_by_id_found (store : List Transaction)
    (t : Transaction) (uid i : ℕ)
    (hfind : store.find? (fun u => u.id = i) = some t) :
    delete_transaction_by_id store uid i =
      if t.user_id ≠ uid then (false, store)
      else (true, store.eraseP (fun u => u.id = i)) := by
  rw [delete_transaction_by_id, hfind]

/-- Whatever `get_user_transactions` returns is a row of the store owned
by the requested user. -/
lemma get_user_transactions_sub (store : List Transaction) (uid : ℕ) :
    ∀ t ∈ get_user_transactions store uid, t ∈ store ∧ t.user_id = uid := by
  intro t ht
  rw [get_user_transactions] at ht
  have h1 := List.mem_mergeSort.mp (List.mem_of_mem_take ht)
  refine ⟨List.mem_of_mem_filter h1, ?_⟩
  have h2 := List.of_mem_filter h1
  simp only [txFilterPred, Option.elim, Bool.and_true,
    Bool.and_eq_true, decide_eq_true_eq] at h2
  exact h2

/-- A row of the store owned by `uid` is listed by
`get_user_transactions` provided the user has at most 50 rows (the
default `LIMIT`). -/
lemma mem_get_user_transactions (store : List Transaction) (uid : ℕ)
    (t : Transaction) (ht : t ∈ store) (huid : t.user_id = uid)
    (hlim : (store.filter (fun u => u.user_id = uid)).length ≤ 50) :
    t ∈ get_user_transactions store uid := by
  rw [get_user_transactions]
  have hpred : txFilterPred uid none none none =
      (fun u : Transaction => decide (u.user_id = uid)) := by
    funext u
    simp [txFilterPred]
  rw [List.take_of_length_le]
  · exact List.mem_mergeSort.mpr
      (List.mem_filter.mpr ⟨ht, by simp [txFilterPred, huid]⟩)
  · rw [List.length_mergeSort]
    simpa [hpred] using hlim

/-- **C6.** For every transaction `t` in the store,
`delete_by_id(owner, t.id)` succeeds and a subsequent listing excludes
`t`, while `delete_by_id(non_owner, t.id)` returns exactly the same
`(false, unchanged store)` answer as for a nonexistent id — never
leaking existence — and `t` remains listable by its owner.  (`hlim`
keeps the owner's rows within the listing's `LIMIT 50`.) -/
theorem delete_by_id_owner_scoping
    (store : List Transaction) (t : Transaction) (non_owner : ℕ)
    (hnd : (store.map Transaction.id).Nodup) (ht : t ∈ store)
    (hno : non_owner ≠ t.user_id)
    (hlim : (store.filter (fun u => u.user_id = t.user_id)).length ≤ 50) :
    (delete_transaction_by_id store t.user_id t.id).1 = true ∧
    t ∉ get_user_transactions
      (delete_transaction_by_id store t.user_id t.id).2 t.user_id ∧
    delete_transaction_by_id store non_owner t.id = (false, store) ∧
    t ∈ get_user_transactions store t.user_id := by
  have hfind := find?_id_eq_some store t hnd ht
  have hred := delete_transaction_by_id_found store t t.user_id t.id hfind
  rw [if_neg (fun h => h rfl)] at hred
  refine ⟨?_, ?_, ?_, mem_get_user_transactions store t.user_id t ht rfl hlim⟩
  · rw [hred]
  · intro hmem
    rw [hred] at hmem
    have h2 : store.eraseP (fun u => u.id = t.id) =
        store.filter (fun u => u.id ≠ t.id) :=
      eraseP_id_eq_filter store hnd t.id
    rw [h2] at hmem
    have h3 := (get_user_transactions_sub _ t.user_id t hmem).1
    have h4 := List.of_mem_filter h3
    simp at h4
  · rw [delete_transaction_by_id_found store t non_owner t.id hfind,
      if_pos hno.symm]

/-- Witness store for C6: two users, one transaction each. -/
def ownerStore : List Transaction :=
  [⟨1, 1, .EXPENSE, 10, none, 5, "RUB", none, 100, 100⟩,
   ⟨2, 2, .INCOME, 11, none, 7, "RUB", none, 200, 200⟩]

/-- The head of the `created_at`-descending sort is a maximal element. -/
lemma head_mergeSort_created_max (l : List Transaction) (t : Transaction)
    (hhead : (l.mergeSort
      (fun a b => b.created_at ≤ a.created_at)).head? = some t) :
    t ∈ l ∧ ∀ u ∈ l, u.created_at ≤ t.created_at := by
  have hs := @List.sorted_mergeSort Transaction
    (fun a b => decide (b.created_at ≤ a.created_at))
    (fun a b c hab hbc => by
      simp only [decide_eq_true_eq] at hab hbc ⊢
      exact le_trans hbc hab)
    (fun a b => by
      simp only [Bool.or_eq_true, decide_eq_true_eq]
      exact le_total b.created_at a.created_at) l
  rcases hms : l.mergeSort (fun a b => b.created_at ≤ a.created_at)
      with _ | ⟨a, rest⟩
  · rw [hms] at hhead; exact absurd hhead (by simp)
  · rw [hms] at hhead
    have hat : a = t := by simpa using hhead
    subst hat
    rw [hms] at hs
    have hrest := List.pairwise_cons.mp hs
    constructor
    · exact List.mem_mergeSort.mp (hms ▸ List.mem_cons_self a rest)
    · intro u hu
      have humem : u ∈ a :: rest := hms ▸ List.mem_mergeSort.mpr hu
      rcases List.mem_cons.mp humem with h | h
      · exact le_of_eq (congrArg Transaction.created_at h)
      · simpa using hrest.1 u h

/-- **C7.** Undo deletes exactly the user's most recent transaction (by
creation timestamp) created within the trailing 5-minute window: the
deleted row is a window candidate at least as recent as every candidate,
and precisely the rows with other ids remain; with no candidate in the
window, undo reports "nothing to undo" and deletes nothing. -/
theorem undo_deletes_most_recent (store : List Transaction)
    (user : ℕ) (now : ℤ) (hnd : (store.map Transaction.id).Nodup) :
    (undoCandidates store user now 5 = [] →
      cmd_undo store user now = (.nothingToUndo, store)) ∧
    (undoCandidates store user now 5 ≠ [] →
      ∃ t, t ∈ undoCandidates store user now 5 ∧
        (∀ u ∈ undoCandidates store user now 5,
          u.created_at ≤ t.created_at) ∧
        cmd_undo store user now =
          (.undone t, store.filter (fun u => u.id ≠ t.id))) := by
  constructor
  · intro h
    have hd : delete_last_transaction store user now = (none, store) := by
      rw [delete_last_transaction, h]
      simp
    simp [cmd_undo, hd]
  · intro h
    rcases hms : (undoCandidates store user now 5).mergeSort
        (fun a b => b.created_at ≤ a.created_at) with _ | ⟨t, rest⟩
    · exfalso
      have := congrArg List.length hms
      rw [List.length_mergeSort] at this
      exact h (List.length_eq_zero.mp this)
    · have hmax := head_mergeSort_created_max (undoCandidates store user now 5)
        t (by rw [hms]; rfl)
      refine ⟨t, hmax.1, hmax.2, ?_⟩
      have hd : delete_last_transaction store user now =
          (some t, store.eraseP (fun u => u.id = t.id)) := by
        rw [delete_last_transaction, hms]
        rfl
      simp [cmd_undo, hd, eraseP_id_eq_filter store hnd t.id]

/-- Witness store for C7: user 1 has two transactions inside the window. -/
def undoStore : List Transaction :=
  [⟨1, 1, .EXPENSE, 10, none, 5, "RUB", none, 100, 100⟩,
   ⟨2, 1, .EXPENSE, 11, none, 7, "RUB", none, 200, 200⟩]

/-- Witness for C7: at `now = 350` both rows are within 5 minutes;
the undo targets the most recent one. -/
theorem undo_deletes_most_recent_witness :
    ∃ t, t ∈ undoCandidates undoStore 1 350 5 ∧
      (∀ u ∈ undoCandidates undoStore 1 350 5,
        u.created_at ≤ t.created_at) ∧
      cmd_undo undoStore 1 350 =
        (.undone t, undoStore.filter (fun u => u.id ≠ t.id)) :=
  (undo_deletes_most_recent undoStore 1 350 (by decide)).2 (by decide)

/-- Witness for C6: user 2 cannot delete user 1's transaction, user 1
can, and listings behave as claimed. -/
theorem delete_by_id_owner_scoping_witness :
    (delete_transaction_by_id ownerStore 1 1).1 = true ∧
    (⟨1, 1, .EXPENSE, 10, none, 5, "RUB", none, 100, 100⟩ : Transaction) ∉
      get_user_transactions (delete_transaction_by_id ownerStore 1 1).2 1 ∧
    delete_transaction_by_id ownerStore 2 1 = (false, ownerStore) ∧
    (⟨1, 1, .EXPENSE, 10, none, 5, "RUB", none, 100, 100⟩ : Transaction) ∈
      get_user_transactions ownerStore 1 :=
  delete_by_id_owner_scoping ownerStore
    ⟨1, 1, .EXPENSE, 10, none, 5, "RUB", none, 100, 100⟩ 2
    (by decide) (by decide) (by decide) (by decide)

/-- **C8.** The recent-transactions browser pages newest-first with the
fixed page size 10: with 15 matching transactions, offset 0 returns 10
rows and the forward ("has more") button is shown, offset 10 returns the
remaining 5 rows and the forward button is not shown. -/
theorem recent_pagination_fifteen (store : List Transaction)
    (user : ℕ) (kind : Option String)
    (h : (store.filter (recentPred user kind)).length = 15) :
    (fetch_recent store user kind 0).length = 10 ∧
    hasMoreSignal (fetch_recent store user kind 0) = true ∧
    (fetch_recent store user kind 10).length = 5 ∧
    hasMoreSignal (fetch_recent store user kind 10) = false := by
  have hlen : ∀ off : ℕ, (fetch_recent store user kind off).length =
      min 10 (15 - off) := by
    intro off
    rw [fetch_recent]
    simp [List.length_take, List.length_drop, List.length_mergeSort, h,
      Nat.min_comm]
  refine ⟨by rw [hlen]; rfl, ?_, by rw [hlen]; rfl, ?_⟩
  · rw [hasMoreSignal, hlen]
    rfl
  · rw [hasMoreSignal, hlen]
    rfl

/-- **C9, counterexample.** The claim quantifies over every string of the
accepted grammar, but the grammar admits more than two fractional
digits, and the tabular formatter rounds to two decimals: `"2.999"` is
accepted (parses to 2.999), formats as `"3,00"`, and re-parses to 3, so
`parse(format(parse(s))) ≠ parse(s)`. -/
theorem parse_format_parse_not_idempotent :
    (parse_amount "2.999").isSome = true ∧
    (parse_amount "2.999").bind (fun q => parse_amount (formatAmount q)) ≠
      parse_amount "2.999" := by
  have h1 : parse_amount "2.999" = some (mkRat 2999 1000) := by decide
  have hq : (100 * mkRat 2999 1000 : ℚ) = 2999 / 10 := by
    rw [Rat.mkRat_eq_div]
    norm_num
  have hf : ⌊(2999 / 10 : ℚ)⌋ = 299 := by
    rw [Int.floor_eq_iff]
    norm_num
  have h2 : roundHalfEven (100 * mkRat 2999 1000) = 300 := by
    rw [roundHalfEven, hq, hf]
    rw [if_neg (by norm_num), if_pos (by norm_num)]
    norm_num
  have h3 : formatAmount (mkRat 2999 1000) = "3,00" := by
    rw [formatAmount, h2]
    rw [show ((300 : ℤ).toNat) = 300 from rfl]
    rw [show (300 : ℕ) / 100 = 3 from by norm_num,
      show (300 : ℕ) % 100 = 0 from by norm_num,
      show (0 : ℕ) / 10 = 0 from by norm_num]
    rw [show natToDigitChars 3 = ['3'] from by
      simp [natToDigitChars, natToRevDigits]
      decide]
    rfl
  have h4 : parse_amount "3,00" = some 3 := by decide
  refine ⟨by rw [h1]; rfl, ?_⟩
  rw [h1]
  show parse_amount (formatAmount (mkRat 2999 1000)) ≠ some (mkRat 2999 1000)
  rw [h3, h4]
  intro hcon
  rw [Option.some.injEq] at hcon
  have : (3 : ℚ) ≠ mkRat 2999 1000 := by decide
  exact this hcon

/-- **C9, amended.** For every valid amount string `s` whose parsed value
has at most two fractional decimal digits (`100 * parse(s)` is an
integer — the only values the two-decimal tabular formatter can
represent exactly), parsing is idempotent through the display formatter:
`parse(format(parse(s))) = parse(s)`. -/
theorem parse_format_parse_roundtrip (s : String) (q : ℚ)
    (hq : parse_amount s = some q) (hden : (100 * q).den = 1) :
    parse_amount (formatAmount q) = parse_amount s := by
  have hq0 : 0 ≤ q := parse_amount_nonneg s q hq
  have hnum : (((100 * q).num : ℚ)) = 100 * q := (Rat.den_eq_one_iff _).mp hden
  have hfloor : ⌊(100 * q : ℚ)⌋ = (100 * q).num := by
    conv_lhs => rw [← hnum]
    exact Int.floor_intCast _
  have hround : roundHalfEven (100 * q) = (100 * q).num := by
    rw [roundHalfEven, hfloor]
    rw [if_pos]
    rw [hnum, sub_self]
    norm_num
  have hnn : 0 ≤ (100 * q).num := Rat.num_nonneg.mpr (by positivity)
  have hcast : (((100 * q).num.toNat : ℤ)) = (100 * q).num :=
    Int.toNat_of_nonneg hnn
  rw [formatAmount, hround, hq]
  rw [parse_format_cents ((100 * q).num.toNat)]
  rw [Option.some.injEq, Rat.mkRat_eq_div]
  have hratcast : (((100 * q).num.toNat : ℚ)) = 100 * q := by
    rw [← hnum]
    exact_mod_cast congrArg (fun z : ℤ => (z : ℚ)) hcast
  push_cast
  rw [hratcast, mul_comm, mul_div_assoc]
  norm_num

/-- Witness for C9 (amended): `s = "2,50"`, whose value 2.50 has exactly
two decimals and formats as `"2,50"` again. -/
theorem parse_format_parse_roundtrip_witness :
    parse_amount (formatAmount (mkRat 250 100)) = parse_amount "2,50" :=
  parse_format_parse_roundtrip "2,50" (mkRat 250 100) (by decide) (by
    rw [show (100 : ℚ) * mkRat 250 100 = 250 from by
      rw [Rat.mkRat_eq_div]; norm_num]
    simp)

/-- Witness store for C8: 15 transactions of user 1. -/
def pageStore : List Transaction :=
  (List.range 15).map (fun i =>
    ⟨i, 1, .EXPENSE, 10, none, 1, "RUB", none, (i : ℤ), (i : ℤ)⟩)

/-- Witness for C8: the two pages of the 15-row store. -/
theorem recent_pagination_fifteen_witness :
    (pageStore.filter (recentPred 1 none)).length = 15 ∧
    ((fetch_recent pageStore 1 none 0).length = 10 ∧
      hasMoreSignal (fetch_recent pageStore 1 none 0) = true ∧
      (fetch_recent pageStore 1 none 10).length = 5 ∧
      hasMoreSignal (fetch_recent pageStore 1 none 10) = false) :=
  ⟨by decide, recent_pagination_fifteen pageStore 1 none (by decide)⟩

end TgBotSells
